import Mathlib

/-!
# Verification of the file-catalog-indexer core algorithms

Shallow embedding, in Lean 4, of the algorithmic core of the
WIPACrepo/file-catalog-indexer repository: the path-collector chunker, the
denylist filter, the catalog-sync protocol, the dataset-number parser, the
IceProd output-file search, the filename classifier, the per-directory L2
metadata cache, and the steering-parameter key mapping.  Each definition is
translated from the named Python source function; theorems settle the spec's
claims about them.
-/

namespace FCIndexer

/-! ## PathCollector chunking

Embedding of `_chunk` in `src/resources/path_collector/path_collector.py`.
The traverse file is a list of lines (one filepath per line); `fsize` stands
for `os.stat(path.strip()).st_size`, i.e. the size lookup applied to a line.
The loop accumulates lines in `queue` together with their aggregate size
`qsize`, and emits a chunk as soon as `qsize` reaches `chunkSize`; whatever
remains at end of input becomes the final chunk.  `chunk_size == 0` bypasses
chunking and copies the traverse file whole (`chunk-0`).
-/

/-- The chunking loop of `_chunk` (path_collector.py lines 108-125):
`queue.append(path); queue_f_size += f_size; if queue_f_size >= chunk_size:`
emit and reset; at end of file, emit the leftover queue if non-empty. -/
def chunkLoop (chunkSize : Nat) (fsize : String → Nat) :
    List String → Nat → List String → List (List String)
  | [], _, queue => if queue.isEmpty then [] else [queue]
  | p :: rest, qsize, queue =>
    let queue' := queue ++ [p]
    let qsize' := qsize + fsize p
    if chunkSize ≤ qsize' then queue' :: chunkLoop chunkSize fsize rest 0 []
    else chunkLoop chunkSize fsize rest qsize' queue'

/-- `_chunk` (path_collector.py lines 79-132): zero chunk size copies the
whole traverse file as a single chunk, otherwise run the chunking loop. -/
def chunk (chunkSize : Nat) (fsize : String → Nat) (lines : List String) :
    List (List String) :=
  if chunkSize = 0 then [lines] else chunkLoop chunkSize fsize lines 0 []

/-- Aggregate file size of a chunk: sum of the sizes of its listed paths. -/
def chunkSum (fsize : String → Nat) (c : List String) : Nat :=
  (c.map fsize).sum

lemma chunkSum_nil (fsize : String → Nat) : chunkSum fsize [] = 0 := rfl

lemma chunkSum_concat (fsize : String → Nat) (c : List String) (p : String) :
    chunkSum fsize (c ++ [p]) = chunkSum fsize c + fsize p := by
  simp [chunkSum]

/-- The concatenation of all chunks produced by the loop is the pending queue
followed by the remaining input. -/
lemma chunkLoop_join (chunkSize : Nat) (fsize : String → Nat) :
    ∀ (rest : List String) (qsize : Nat) (queue : List String),
      (chunkLoop chunkSize fsize rest qsize queue).flatten = queue ++ rest
  | [], qsize, queue => by
    by_cases h : queue.isEmpty
    · simp [chunkLoop, h, List.isEmpty_iff.mp h]
    · simp [chunkLoop, h]
  | p :: rest, qsize, queue => by
    by_cases h : chunkSize ≤ qsize + fsize p
    · simp only [chunkLoop, h, if_pos, List.flatten]
      rw [chunkLoop_join chunkSize fsize rest 0 []]
      simp
    · simp only [chunkLoop, h, if_neg, not_false_iff]
      rw [chunkLoop_join chunkSize fsize rest (qsize + fsize p) (queue ++ [p])]
      simp

/-- Every chunk emitted by the loop other than the final one reaches the
threshold, and falls below it once its last line is removed — provided the
pending queue is still below the threshold (the loop's invariant). -/
lemma chunkLoop_threshold (chunkSize : Nat) (fsize : String → Nat) :
    ∀ (rest : List String) (qsize : Nat) (queue : List String),
      qsize = chunkSum fsize queue → qsize < chunkSize →
      ∀ c ∈ (chunkLoop chunkSize fsize rest qsize queue).dropLast,
        chunkSize ≤ chunkSum fsize c ∧ chunkSum fsize c.dropLast < chunkSize
  | [], qsize, queue => by
    intro hq hlt c hc
    by_cases h : queue.isEmpty <;> simp [chunkLoop, h] at hc
  | p :: rest, qsize, queue => by
    intro hq hlt c hc
    by_cases h : chunkSize ≤ qsize + fsize p
    · simp only [chunkLoop, h, if_pos] at hc
      cases htail : chunkLoop chunkSize fsize rest 0 [] with
      | nil => rw [htail] at hc; simp at hc
      | cons c₂ cs₂ =>
        rw [htail, List.dropLast_cons₂] at hc
        rcases List.mem_cons.mp hc with hc | hc
        · subst hc
          refine ⟨by rw [chunkSum_concat, ← hq]; exact h, ?_⟩
          rw [List.dropLast_concat, ← hq]; exact hlt
        · have ih := chunkLoop_threshold chunkSize fsize rest 0 [] rfl
            (lt_of_le_of_lt (Nat.zero_le _) hlt) c
          rw [htail] at ih
          exact ih hc
    · simp only [chunkLoop, h, if_neg, not_false_iff] at hc
      exact chunkLoop_threshold chunkSize fsize rest (qsize + fsize p) (queue ++ [p])
        (by rw [chunkSum_concat, hq]) (lt_of_not_le h) c hc

/-- **C5**: Chunking partitions the traverse file exactly: the concatenation
of all chunk files equals the input traverse file line-for-line (hence also
as a multiset of lines), every chunk except possibly the last has aggregate
file size at least `chunkSize`, and removing the last line of such a chunk
brings its aggregate size below `chunkSize` (each non-final chunk is the
minimal prefix of the remaining lines reaching the threshold); the final
chunk may be smaller. -/
theorem chunk_partitions_traverse (chunkSize : Nat) (fsize : String → Nat)
    (lines : List String) (hpos : 0 < chunkSize) :
    (chunk chunkSize fsize lines).flatten = lines ∧
    ∀ c ∈ (chunk chunkSize fsize lines).dropLast,
      chunkSize ≤ chunkSum fsize c ∧ chunkSum fsize c.dropLast < chunkSize := by
  have hz : chunkSize ≠ 0 := Nat.pos_iff_ne_zero.mp hpos
  constructor
  · rw [chunk, if_neg hz, chunkLoop_join]
    simp
  · intro c hc
    rw [chunk, if_neg hz] at hc
    exact chunkLoop_threshold chunkSize fsize lines 0 [] rfl hpos c hc

/-- Witness for C5 at a concrete input: chunk size 10, sizes given by string
length, six lines of size 4 each. -/
theorem chunk_partitions_traverse_witness :
    0 < 10 ∧
    ((chunk 10 (fun s => s.length)
        ["/d/a1", "/d/a2", "/d/a3", "/d/a4", "/d/a5", "/d/a6"]).flatten =
      ["/d/a1", "/d/a2", "/d/a3", "/d/a4", "/d/a5", "/d/a6"] ∧
    ∀ c ∈ (chunk 10 (fun s => s.length)
        ["/d/a1", "/d/a2", "/d/a3", "/d/a4", "/d/a5", "/d/a6"]).dropLast,
      10 ≤ chunkSum (fun s => s.length) c ∧
        chunkSum (fun s => s.length) c.dropLast < 10) :=
  ⟨by decide,
   chunk_partitions_traverse 10 (fun s => s.length)
     ["/d/a1", "/d/a2", "/d/a3", "/d/a4", "/d/a5", "/d/a6"] (by decide)⟩

/-! ## Paths: `os.path.commonpath`, the denylist filter, and root validation

`path_in_denylist` (src/indexer/index.py lines 145-158) tests
`bad_path == commonpath([path, bad_path])` for each denylist entry;
`path_in_blacklist` (src/indexer/indexer.py lines 212-225) additionally tests
`path == bad_path` first.  `commonpath` is CPython's `posixpath.commonpath`
for two paths: split each on `/`, drop empty and `.` components, take the
longest common component prefix, and re-join with a leading `/` when the
paths are absolute; mixing an absolute with a relative path raises
`ValueError` (modelled as `none`). -/

/-- `p[:1] == sep`: the path is absolute iff its first character is `/`. -/
def isAbs (p : String) : Bool :=
  match p.data with
  | '/' :: _ => true
  | _ => false

/-- `str.split("/")`: split a character list on `/`, keeping empty pieces. -/
def splitSlash : List Char → List (List Char)
  | [] => [[]]
  | c :: rest =>
    let r := splitSlash rest
    if c = '/' then [] :: r
    else
      match r with
      | [] => [[c]]
      | h :: t => (c :: h) :: t

/-- `"/".join(...)`: re-join components with `/`. -/
def joinSlash : List (List Char) → List Char
  | [] => []
  | [x] => x
  | x :: xs => x ++ '/' :: joinSlash xs

/-- Path components as used by `posixpath.commonpath`: split on `/` and drop
empty and `.` components. -/
def pathComponents (p : String) : List (List Char) :=
  (splitSlash p.data).filter (fun c => !c.isEmpty && c != ['.'])

/-- Longest common prefix of two component lists. -/
def commonPrefixL : List (List Char) → List (List Char) → List (List Char)
  | a :: as, b :: bs => if a = b then a :: commonPrefixL as bs else []
  | _, _ => []

/-- `posixpath.commonpath([p, q])`; `none` models the `ValueError` raised on
mixing an absolute and a relative path. -/
def commonpath (p q : String) : Option String :=
  if isAbs p ≠ isAbs q then none
  else
    let pre : List Char := if isAbs p then ['/'] else []
    some ⟨pre ++ joinSlash (commonPrefixL (pathComponents p) (pathComponents q))⟩

/-- The `commonpath`-normal form of an absolute path: leading slash plus its
components re-joined (no trailing slash, no empty or `.` components). -/
def normalizeAbs (p : String) : String :=
  ⟨'/' :: joinSlash (pathComponents p)⟩

/-- `path_in_denylist` (index.py): for each `bad_path` in the denylist, return
`True` when `bad_path == commonpath([path, bad_path])`; a `commonpath`
`ValueError` propagates (`none`). -/
def path_in_denylist (path : String) : List String → Option Bool
  | [] => some false
  | bad :: rest =>
    match commonpath path bad with
    | none => none
    | some c => if bad = c then some true else path_in_denylist path rest

/-- `path_in_blacklist` (indexer.py): `(path == bad_path) or
(os.path.commonpath([path, bad_path]) == bad_path)`; the equality test
short-circuits before `commonpath` can raise. -/
def path_in_blacklist (path : String) : List String → Option Bool
  | [] => some false
  | bad :: rest =>
    if path = bad then some true
    else
      match commonpath path bad with
      | none => none
      | some c => if c = bad then some true else path_in_blacklist path rest

lemma commonPrefixL_self (l : List (List Char)) : commonPrefixL l l = l := by
  induction l with
  | nil => rfl
  | cons a as ih => simp [commonPrefixL, ih]

/-- A normalized absolute path is its own common path with itself. -/
lemma commonpath_self (d : String) (habs : isAbs d = true)
    (hnorm : normalizeAbs d = d) :
    commonpath d d = some d := by
  unfold commonpath
  rw [habs]
  simp only [ne_eq, not_true_eq_false, if_false, ite_true, commonPrefixL_self,
    Option.some.injEq]
  show normalizeAbs d = d
  exact hnorm

/-- Membership characterization of the denylist loop, assuming every entry has
the same absoluteness as `path` (so `commonpath` never raises). -/
lemma path_in_denylist_exists (p : String) (D : List String)
    (habs : ∀ d ∈ D, isAbs d = isAbs p) :
    path_in_denylist p D = some true ↔ ∃ d ∈ D, commonpath p d = some d := by
  induction D with
  | nil => simp [path_in_denylist]
  | cons bad rest ih =>
    have hb : isAbs bad = isAbs p := habs bad (by simp)
    have hmix : ¬(isAbs p ≠ isAbs bad) := by simp [hb]
    have hcp : commonpath p bad =
        some ⟨(if isAbs p then ['/'] else []) ++
          joinSlash (commonPrefixL (pathComponents p) (pathComponents bad))⟩ := by
      unfold commonpath
      rw [if_neg hmix]
    unfold path_in_denylist
    rw [hcp]
    by_cases heq :
        bad = String.mk ((if isAbs p then ['/'] else []) ++
          joinSlash (commonPrefixL (pathComponents p) (pathComponents bad)))
    · simp only [if_pos heq]
      constructor
      · intro _
        exact ⟨bad, by simp, by rw [hcp, ← heq]⟩
      · intro _; trivial
    · simp only [if_neg heq]
      rw [ih (fun d hd => habs d (by simp [hd]))]
      constructor
      · rintro ⟨d, hd, hcd⟩
        exact ⟨d, by simp [hd], hcd⟩
      · rintro ⟨d, hd, hcd⟩
        rcases List.mem_cons.mp hd with hd | hd
        · exfalso
          subst hd
          rw [hcp] at hcd
          simp only [Option.some.injEq] at hcd
          exact heq hcd.symm
        · exact ⟨d, hd, hcd⟩

/-- **C6 counterexample**: the claimed equivalence fails as stated.  With the
non-normalized entry `/data/exp/foo/` (trailing slash) and the path equal to
that entry, the path is in the denylist, yet `path_in_denylist` returns
`false`, because `commonpath` normalizes away the trailing slash and the
string comparison `bad_path == commonpath([path, bad_path])` fails. -/
theorem path_in_denylist_iff_cex :
    ¬ (path_in_denylist "/data/exp/foo/" ["/data/exp/foo/"] = some true ↔
        "/data/exp/foo/" ∈ ["/data/exp/foo/"] ∨
          ∃ d ∈ ["/data/exp/foo/"], commonpath "/data/exp/foo/" d = some d) := by
  intro h
  have h1 : path_in_denylist "/data/exp/foo/" ["/data/exp/foo/"] = some true :=
    h.mpr (Or.inl (by simp))
  have h2 : path_in_denylist "/data/exp/foo/" ["/data/exp/foo/"] = some false := by
    decide
  rw [h1] at h2
  simp at h2

/-- **C6 (amended)**: for an absolute path `p` and a denylist `D` of absolute
*normalized* entries (no trailing slash, no empty or `.` components — as
produced by the `abspath` aggregation in `index()`), `path_in_denylist p D`
returns true iff `p` equals some entry of `D` or some entry `d` of `D` is the
common path of `p` and `d`; consequently a denylisted directory
`/data/exp/foo` excludes every path under it while the sibling
`/data/exp/foobar` is unaffected. -/
theorem path_in_denylist_iff (p : String) (D : List String)
    (hp : isAbs p = true)
    (hD : ∀ d ∈ D, isAbs d = true ∧ normalizeAbs d = d) :
    (path_in_denylist p D = some true ↔
      p ∈ D ∨ ∃ d ∈ D, commonpath p d = some d) ∧
    path_in_denylist "/data/exp/foo/run1.i3" ["/data/exp/foo"] = some true ∧
    path_in_denylist "/data/exp/foo/sub/run2.i3" ["/data/exp/foo"] = some true ∧
    path_in_denylist "/data/exp/foobar" ["/data/exp/foo"] = some false := by
  refine ⟨?_, by decide, by decide, by decide⟩
  rw [path_in_denylist_exists p D (fun d hd => by rw [(hD d hd).1, hp])]
  constructor
  · exact Or.inr
  · rintro (hmem | h)
    · exact ⟨p, hmem, by
        rcases hD p hmem with ⟨habs, hnorm⟩
        exact commonpath_self p habs hnorm⟩
    · exact h

/-- Witness for the amended C6 at a concrete input. -/
theorem path_in_denylist_iff_witness :
    isAbs "/data/exp/foo/run1.i3" = true ∧
    ((path_in_denylist "/data/exp/foo/run1.i3" ["/data/exp/foo"] = some true ↔
        "/data/exp/foo/run1.i3" ∈ ["/data/exp/foo"] ∨
          ∃ d ∈ ["/data/exp/foo"],
            commonpath "/data/exp/foo/run1.i3" d = some d) ∧
      path_in_denylist "/data/exp/foo/run1.i3" ["/data/exp/foo"] = some true ∧
      path_in_denylist "/data/exp/foo/sub/run2.i3" ["/data/exp/foo"] = some true ∧
      path_in_denylist "/data/exp/foobar" ["/data/exp/foo"] = some false) :=
  ⟨by decide,
   path_in_denylist_iff "/data/exp/foo/run1.i3" ["/data/exp/foo"] (by decide)
     (by intro d hd; simp at hd; subst hd; exact ⟨by decide, by decide⟩)⟩

/-! ## Root validation (`validate_path` / `index`)

`validate_path` (src/indexer/index.py lines 275-282) checks that a starting
path is rooted at one of `ACCEPTED_ROOTS = ["/data"]` via
`root == commonpath([path, root])`, raising otherwise; `index()` (lines
344-349) validates every aggregated starting path this way before building
the REST client, the metadata manager, or any traversal. -/

def ACCEPTED_ROOTS : List String := ["/data"]

/-- The loop body of `validate_path`: return on the first accepted root that
is the common path of `path` and the root; raise when the roots are
exhausted.  A `commonpath` `ValueError` (relative path) also raises. -/
def validate_pathLoop (path : String) : List String → Except String Unit
  | [] => .error (path ++ " is not rooted at an accepted root")
  | root :: rest =>
    match commonpath path root with
    | none => .error "ValueError"
    | some c => if root = c then .ok () else validate_pathLoop path rest

/-- `validate_path` (index.py lines 275-282). -/
def validate_path (path : String) : Except String Unit :=
  validate_pathLoop path ACCEPTED_ROOTS

/-- The `for p in paths: validate_path(p)` loop of `index()`. -/
def validateAll : List String → Except String Unit
  | [] => .ok ()
  | p :: rest =>
    match validate_path p with
    | .ok _ => validateAll rest
    | .error e => .error e

/-- The ordering of `index()`: every starting path is validated before the
traversal/indexing stage (abstracted as `traverse`) can run. -/
def indexEntry {α : Type} (paths : List String) (traverse : List String → α) :
    Except String α :=
  match validateAll paths with
  | .error e => .error e
  | .ok _ => .ok (traverse paths)

/-- `validate_path` succeeds exactly when `/data` is the common path of the
path and `/data`. -/
lemma validate_path_ok_iff (p : String) :
    validate_path p = .ok () ↔ commonpath p "/data" = some "/data" := by
  unfold validate_path validate_pathLoop ACCEPTED_ROOTS
  cases h : commonpath p "/data" with
  | none => simp [h]
  | some c =>
    by_cases hc : "/data" = c
    · subst hc; simp [h]
    · simp only [h, if_neg hc]
      constructor
      · intro habs; cases habs
      · intro hsome
        exact absurd (Option.some.injEq .. ▸ hsome.symm ▸ rfl : c = "/data")
          (fun hh => hc hh.symm)

/-- If some path fails validation, `validateAll` errors. -/
lemma validateAll_error (paths : List String) (p : String) (hmem : p ∈ paths)
    (hbad : validate_path p ≠ .ok ()) : ∃ e, validateAll paths = .error e := by
  induction paths with
  | nil => cases hmem
  | cons q rest ih =>
    unfold validateAll
    cases hq : validate_path q with
    | error e => exact ⟨e, rfl⟩
    | ok u =>
      rcases List.mem_cons.mp hmem with rfl | hmem'
      · exact absurd (by cases u; exact hq) hbad
      · exact ih hmem'

/-- If every path validates, `validateAll` succeeds. -/
lemma validateAll_ok (paths : List String)
    (h : ∀ p ∈ paths, validate_path p = .ok ()) : validateAll paths = .ok () := by
  induction paths with
  | nil => rfl
  | cons q rest ih =>
    unfold validateAll
    rw [h q (by simp)]
    exact ih (fun p hp => h p (by simp [hp]))

/-- **C10**: implicit precondition at the public entry point: a starting path
is accepted exactly when `/data` is the common path of the path and `/data`;
if any aggregated starting path is not rooted at `/data`, `index` raises
before any traversal or indexing occurs (the result is an error that does not
depend on the traversal stage); if all paths are rooted at `/data`, the
traversal stage runs on them. -/
theorem index_requires_data_root :
    (∀ p : String, validate_path p = .ok () ↔ commonpath p "/data" = some "/data") ∧
    (∀ (paths : List String) (p : String), p ∈ paths →
      commonpath p "/data" ≠ some "/data" →
      ∃ e : String, ∀ (α : Type) (traverse : List String → α),
        indexEntry paths traverse = .error e) ∧
    (∀ (α : Type) (paths : List String) (traverse : List String → α),
      (∀ p ∈ paths, commonpath p "/data" = some "/data") →
      indexEntry paths traverse = .ok (traverse paths)) := by
  refine ⟨validate_path_ok_iff, ?_, ?_⟩
  · intro paths p hmem hbad
    obtain ⟨e, he⟩ :=
      validateAll_error paths p hmem (fun hok => hbad ((validate_path_ok_iff p).mp hok))
    exact ⟨e, fun α traverse => by unfold indexEntry; rw [he]⟩
  · intro α paths traverse h
    unfold indexEntry
    rw [validateAll_ok paths (fun p hp => (validate_path_ok_iff p).mpr (h p hp))]

/-- Witness for C10 at concrete inputs: `/data/exp/x` is accepted, and a run
starting at `/home/x` errors before traversal. -/
theorem index_requires_data_root_witness :
    (validate_path "/data/exp/x" = .ok () ↔
      commonpath "/data/exp/x" "/data" = some "/data") ∧
    (∃ e : String, ∀ (α : Type) (traverse : List String → α),
      indexEntry ["/home/x"] traverse = .error e) :=
  ⟨index_requires_data_root.1 "/data/exp/x",
   index_requires_data_root.2.1 ["/home/x"] "/home/x" (by simp) (by decide)⟩

/-! ## Catalog sync protocol

Embedding of `_post_metadata`, `file_exists_in_fc` and `index_file`
(src/indexer/index.py lines 46-115) and `request_post_patch`
(src/indexer/indexer.py lines 124-141).  The catalog server itself is an
external collaborator (spec §6): its visible behaviour is that `POST
/api/files` creates a record and answers HTTP 409 — with the existing
record's URI in the body — when a record with the same key already exists,
and that `GET /api/files?query={"locations.path": p}` reports whether a
record with that location path exists.  A record is keyed here by its
location path. -/

/-- The catalog server's response to a POST, as seen by the client: success,
or an `HTTPError` carrying its status code and the `{"file": ...}` URI of
the response body (meaningful when the code is 409). -/
inductive PostResponse where
  | success
  | httpError (code : Nat) (fileUri : String)
deriving DecidableEq

/-- What one sync call did. -/
inductive SyncOutcome where
  | posted
  | patched (uri : String)
  | skippedConflict
  | skippedExists
  | raised (code : Nat)
deriving DecidableEq

/-- The write requests issued by one sync call, plus its outcome. -/
structure SyncTrace where
  posts : Nat
  patches : List String
  outcome : SyncOutcome
deriving DecidableEq

/-- `_post_metadata` (index.py lines 46-69): always issue the POST (note that
`dryrun` in the source only logs and sleeps — it does not suppress the
request); on HTTP 409 PATCH the URI from the 409 body when `patch` is true
and skip when it is false; re-raise any other HTTP error unmodified. -/
def postMetadata (resp : PostResponse) (patch : Bool) (dryrun : Bool) : SyncTrace :=
  match resp with
  | .success => ⟨1, [], .posted⟩
  | .httpError code uri =>
    if code = 409 then
      if patch then ⟨1, [uri], .patched uri⟩ else ⟨1, [], .skippedConflict⟩
    else ⟨1, [], .raised code⟩

/-- `request_post_patch` (indexer.py lines 124-141): same protocol with the
flag inverted (`dont_patch`). -/
def request_post_patch (resp : PostResponse) (dont_patch : Bool) : SyncTrace :=
  match resp with
  | .success => ⟨1, [], .posted⟩
  | .httpError code uri =>
    if code = 409 then
      if dont_patch then ⟨1, [], .skippedConflict⟩ else ⟨1, [uri], .patched uri⟩
    else ⟨1, [], .raised code⟩

/-- `index_file` (index.py lines 87-115): when `patch` is false, first ask
the catalog whether the filepath exists (`file_exists_in_fc`); if it does,
skip without issuing any write; otherwise run `_post_metadata`. -/
def index_file (existsInFc : Bool) (resp : PostResponse) (patch dryrun : Bool) :
    SyncTrace :=
  if !patch && existsInFc then ⟨0, [], .skippedExists⟩
  else postMetadata resp patch dryrun

/-- `file_exists_in_fc` (index.py lines 72-84) against the modelled catalog
state: query by `locations.path`. -/
def file_exists_in_fc (state : List String) (filepath : String) : Bool :=
  state.contains filepath

/-- The catalog server's POST handler (external interface, spec §6): create
the record, or answer 409 with the existing record's URI. -/
def serverPost (state : List String) (path : String) :
    List String × PostResponse :=
  if state.contains path then (state, .httpError 409 ("/api/files/" ++ path))
  else (path :: state, .success)

/-- One full `index_file` call against the live catalog state: existence
pre-check, then POST (and conflict-driven PATCH, which overwrites the record
in place and leaves the key set unchanged). -/
def syncFile (state : List String) (filepath : String) (patch dryrun : Bool) :
    List String × SyncTrace :=
  if !patch && file_exists_in_fc state filepath then
    (state, ⟨0, [], .skippedExists⟩)
  else
    let sr := serverPost state filepath
    (sr.1, postMetadata sr.2 patch dryrun)

/-- **C1**: catalog sync is idempotent: for a file not yet in the catalog,
calling sync twice with `patch=false` issues exactly one POST and zero
PATCHes — the first call creates the record, the second call's existence
check (query by `locations.path`) finds it and returns without issuing any
write, leaving the catalog state unchanged. -/
theorem sync_idempotent (s : List String) (fp : String) (dryrun : Bool)
    (hnew : file_exists_in_fc s fp = false) :
    (syncFile s fp false dryrun).2.posts = 1 ∧
    (syncFile s fp false dryrun).2.patches = [] ∧
    (syncFile s fp false dryrun).2.outcome = .posted ∧
    (syncFile (syncFile s fp false dryrun).1 fp false dryrun).2.posts = 0 ∧
    (syncFile (syncFile s fp false dryrun).1 fp false dryrun).2.patches = [] ∧
    (syncFile (syncFile s fp false dryrun).1 fp false dryrun).2.outcome
      = .skippedExists ∧
    (syncFile (syncFile s fp false dryrun).1 fp false dryrun).1
      = (syncFile s fp false dryrun).1 := by
  have hmem : file_exists_in_fc (fp :: s) fp = true := by
    simp [file_exists_in_fc, List.contains_cons]
  have hnc : s.contains fp = false := hnew
  have hnm : fp ∉ s := by
    have h' : s.elem fp = false := hnc
    simpa [List.elem_eq_mem, decide_eq_false_iff_not] using h'
  simp [syncFile, serverPost, postMetadata, hnew, hnc, hnm, hmem,
    file_exists_in_fc, List.contains_cons]

/-- Witness for C1 at a concrete input: empty catalog, one file. -/
theorem sync_idempotent_witness :
    file_exists_in_fc [] "/data/exp/f.i3" = false ∧
    ((syncFile [] "/data/exp/f.i3" false false).2.posts = 1 ∧
     (syncFile [] "/data/exp/f.i3" false false).2.patches = [] ∧
     (syncFile [] "/data/exp/f.i3" false false).2.outcome = .posted ∧
     (syncFile (syncFile [] "/data/exp/f.i3" false false).1 "/data/exp/f.i3"
        false false).2.posts = 0 ∧
     (syncFile (syncFile [] "/data/exp/f.i3" false false).1 "/data/exp/f.i3"
        false false).2.patches = [] ∧
     (syncFile (syncFile [] "/data/exp/f.i3" false false).1 "/data/exp/f.i3"
        false false).2.outcome = .skippedExists ∧
     (syncFile (syncFile [] "/data/exp/f.i3" false false).1 "/data/exp/f.i3"
        false false).1 = (syncFile [] "/data/exp/f.i3" false false).1) :=
  ⟨rfl, sync_idempotent [] "/data/exp/f.i3" false rfl⟩

/-- **C2**: the per-sync contract: with `patch` false and the existence check
positive, the call skips without issuing any write; otherwise the record is
POSTed; on HTTP 409 the URI from the 409 body is PATCHed with the full
record when `patch` is true and skipped when `patch` is false; any other
HTTP error is re-raised unmodified; and `request_post_patch` (indexer.py) is
the same protocol with the flag inverted. -/
theorem sync_contract (existsInFc : Bool) (resp : PostResponse)
    (patch dryrun : Bool) :
    (patch = false → existsInFc = true →
      index_file existsInFc resp patch dryrun = ⟨0, [], .skippedExists⟩) ∧
    (patch = true ∨ existsInFc = false →
      index_file existsInFc resp patch dryrun = postMetadata resp patch dryrun) ∧
    (postMetadata resp patch dryrun).posts = 1 ∧
    (resp = .success → postMetadata resp patch dryrun = ⟨1, [], .posted⟩) ∧
    (∀ uri, resp = .httpError 409 uri → patch = true →
      postMetadata resp patch dryrun = ⟨1, [uri], .patched uri⟩) ∧
    (∀ uri, resp = .httpError 409 uri → patch = false →
      postMetadata resp patch dryrun = ⟨1, [], .skippedConflict⟩) ∧
    (∀ code uri, resp = .httpError code uri → code ≠ 409 →
      postMetadata resp patch dryrun = ⟨1, [], .raised code⟩) ∧
    request_post_patch resp (!patch) = postMetadata resp patch dryrun := by
  cases resp with
  | success =>
    cases patch <;> cases existsInFc <;>
      simp [index_file, postMetadata, request_post_patch]
  | httpError code uri =>
    by_cases hc : code = 409 <;> cases patch <;> cases existsInFc <;>
      simp [index_file, postMetadata, request_post_patch, hc]

/-- Witness for C2 at a concrete input: `patch=false`, record already in the
catalog — the call skips without any write. -/
theorem sync_contract_witness :
    index_file true .success false false = ⟨0, [], .skippedExists⟩ :=
  (sync_contract true .success false false).1 rfl rfl

/-! ## IceProd dataset-number resolution

Embedding of `_parse_dataset_num_from_dirpath` and the dataset-resolution
part of `get_steering_params_and_ip_metadata`
(src/indexer/metadata/simulation/iceprod_tools.py lines 415-466).
`_ICEPROD_V2_DATASET_RANGE = range(20000, 30000)` and
`_ICEPROD_V1_DATASET_RANGE = range(0, 20000)`. -/

/-- Digits accumulator for `int(p)`. -/
def digitsAcc : List Char → Nat → Option Nat
  | [], acc => some acc
  | c :: rest, acc =>
    if c.isDigit then digitsAcc rest (acc * 10 + (c.toNat - 48)) else none

/-- Python `int(p)` on a path segment: optional sign followed by a non-empty
digit string; anything else raises `ValueError` (`none`). -/
def pyInt (s : String) : Option Int :=
  match s.data with
  | [] => none
  | '-' :: rest =>
    if rest.isEmpty then none else (digitsAcc rest 0).map (fun n => -(n : Int))
  | '+' :: rest =>
    if rest.isEmpty then none else (digitsAcc rest 0).map (fun n => (n : Int))
  | l => (digitsAcc l 0).map (fun n => (n : Int))

/-- `dataset_num in range(lo, hi)`. -/
def inRange (lo hi n : Int) : Bool := lo ≤ n && n < hi

/-- The inner loop of `_parse_dataset_num_from_dirpath`: scan segments for an
integer inside `range(lo, hi)`; unparseable or out-of-range segments are
skipped. -/
def scanSegments (lo hi : Int) : List String → Option Int
  | [] => none
  | p :: rest =>
    match pyInt p with
    | some n => if inRange lo hi n then some n else scanSegments lo hi rest
    | none => scanSegments lo hi rest

/-- `reversed(filepath.split("/")[:-1])`: the path segments excluding the
final filename segment, right-to-left. -/
def dirSegments (fp : String) : List String :=
  (((splitSlash fp.data).map String.mk).dropLast).reverse

/-- `_parse_dataset_num_from_dirpath` (iceprod_tools.py lines 428-440): the
entire scan over the IceProd v2 range runs before the scan over the v1
range. -/
def parse_dataset_num_from_dirpath (fp : String) : Option Int :=
  match scanSegments 20000 30000 (dirSegments fp) with
  | some n => some n
  | none => scanSegments 0 20000 (dirSegments fp)

/-- `_get_iceprod_querier` succeeds exactly on dataset numbers inside one of
the two known ranges (otherwise it raises `DatasetNotFound`). -/
def datasetNumDefined (n : Int) : Bool :=
  inRange 0 20000 n || inRange 20000 30000 n

/-- The dataset-resolution logic of `get_steering_params_and_ip_metadata`
(iceprod_tools.py lines 443-466): a supplied dataset number outside both
ranges is discarded (`DatasetNotFound` caught, `dataset_num = None`), after
which the number is parsed from the filepath; a parse failure raises
`DatasetNotFound` (`Except.error`). -/
def resolveDatasetNum (dataset_num : Option Int) (fp : String) :
    Except Unit Int :=
  match dataset_num with
  | some n =>
    if datasetNumDefined n then .ok n
    else
      match parse_dataset_num_from_dirpath fp with
      | some m => .ok m
      | none => .error ()
  | none =>
    match parse_dataset_num_from_dirpath fp with
    | some m => .ok m
    | none => .error ()

/-- The scan loop is the first hit of a right-to-left search. -/
lemma scanSegments_eq_findSome (lo hi : Int) (l : List String) :
    scanSegments lo hi l =
      l.findSome? (fun p =>
        (pyInt p).bind (fun n => if inRange lo hi n then some n else none)) := by
  induction l with
  | nil => rfl
  | cons p rest ih =>
    unfold scanSegments
    rw [List.findSome?_cons]
    cases hp : pyInt p with
    | none => simpa using ih
    | some n =>
      by_cases hr : inRange lo hi n
      · simp [hp, hr]
      · simp [hp, hr, ih]

/-- **C7**: when no (valid) dataset number is supplied, the dataset number is
parsed from the filepath by scanning the path segments (excluding the final
filename segment) right-to-left for an integer inside a known range, the
entire scan for the IceProd v2 range `[20000, 30000)` running before the
scan for the v1 range `[0, 20000)`; a supplied number inside a known range
is used as-is; if neither a supplied nor a parseable dataset number
resolves, `DatasetNotFound` is raised. -/
theorem dataset_num_resolution (fp : String) (n : Int) :
    (parse_dataset_num_from_dirpath fp =
      match
        (dirSegments fp).findSome? (fun p =>
          (pyInt p).bind (fun m => if inRange 20000 30000 m then some m else none))
      with
      | some m => some m
      | none =>
        (dirSegments fp).findSome? (fun p =>
          (pyInt p).bind (fun m => if inRange 0 20000 m then some m else none))) ∧
    (resolveDatasetNum none fp =
      match parse_dataset_num_from_dirpath fp with
      | some m => .ok m
      | none => .error ()) ∧
    (datasetNumDefined n = false →
      resolveDatasetNum (some n) fp = resolveDatasetNum none fp) ∧
    (datasetNumDefined n = true → resolveDatasetNum (some n) fp = .ok n) := by
  refine ⟨?_, rfl, ?_, ?_⟩
  · unfold parse_dataset_num_from_dirpath
    rw [scanSegments_eq_findSome, scanSegments_eq_findSome]
  · intro hbad
    simp [resolveDatasetNum, hbad]
  · intro hgood
    simp [resolveDatasetNum, hgood]

/-- Witness for C7 at a concrete input: an invalid supplied number falls back
to parsing the filepath; the segment `21002` (v2 range) is found
right-to-left, past the filename and the `00000-00999` segment. -/
theorem dataset_num_resolution_witness :
    datasetNumDefined 99999 = false ∧
    resolveDatasetNum (some 99999) "/data/sim/2012/21002/00000-00999/f.i3" =
      resolveDatasetNum none "/data/sim/2012/21002/00000-00999/f.i3" ∧
    resolveDatasetNum none "/data/sim/2012/21002/00000-00999/f.i3" =
      .ok 21002 :=
  ⟨rfl,
   (dataset_num_resolution "/data/sim/2012/21002/00000-00999/f.i3" 99999).2.2.1 rfl,
   by rfl⟩

/-! ## IceProd v2 output-file search

Embedding of `_IceProdV2Querier._get_outfiles` and
`_IceProdV2Querier._get_outfile_info`
(src/indexer/metadata/simulation/iceprod_tools.py lines 280-320 and
341-408).  Template substitution (`ExpParser` plus the URL-to-path strip in
`get_path_from_url`) is an external collaborator; it enters as an abstract
function `pathOf` mapping an output descriptor and a `(job, iter)` pair to
the substituted filesystem path. -/

/-- One entry of a task/tray/module `data` list. -/
structure DataDecl where
  typ : String
  movement : String
  remote : String
deriving DecidableEq

structure IPModule where
  data : List DataDecl
deriving DecidableEq

structure IPTray where
  iterations : Nat
  data : List DataDecl
  modules : List IPModule
deriving DecidableEq

structure IPTask where
  name : String
  data : List DataDecl
  trays : List IPTray
deriving DecidableEq

/-- `_OutFileData`: url template, iteration count, owning task name. -/
structure OutFileData where
  url : String
  iters : Nat
  task : String
deriving DecidableEq

/-- `do_append`: keep descriptors of type `permanent`/`site_temp` whose
movement is `output`/`both`. -/
def do_append (datum : DataDecl) : Bool :=
  (datum.typ == "permanent" || datum.typ == "site_temp") &&
  (datum.movement == "output" || datum.movement == "both")

/-- `_get_outfiles` (iceprod_tools.py lines 280-320): collect every output
descriptor, in declaration order — each task's own `data`, then per tray its
`data` followed by its modules' `data`; task data get one iteration, tray
and module data get the tray's iteration count. -/
def get_outfiles (tasks : List IPTask) : List OutFileData :=
  tasks.flatMap (fun task =>
    (task.data.filter do_append).map
      (fun d => ⟨d.remote, 1, task.name⟩) ++
    task.trays.flatMap (fun tray =>
      (tray.data.filter do_append).map
        (fun d => ⟨d.remote, tray.iterations, task.name⟩) ++
      tray.modules.flatMap (fun m =>
        (m.data.filter do_append).map
          (fun d => ⟨d.remote, tray.iterations, task.name⟩))))

/-- Innermost loop of `_get_outfile_info`: `for i in range(f_data["iters"])`,
first iteration whose substituted path equals the target wins. -/
def findIterLoop (pathOf : OutFileData → Nat → Nat → String) (filepath : String)
    (f : OutFileData) (job : Nat) : List Nat → Option (Nat × String)
  | [] => none
  | i :: rest =>
    if pathOf f job i == filepath then some (job, f.task)
    else findIterLoop pathOf filepath f job rest

/-- Middle loop: `for job in job_search`. -/
def findJobLoop (pathOf : OutFileData → Nat → Nat → String) (filepath : String)
    (f : OutFileData) : List Nat → Option (Nat × String)
  | [] => none
  | job :: rest =>
    match findIterLoop pathOf filepath f job (List.range f.iters) with
    | some r => some r
    | none => findJobLoop pathOf filepath f rest

/-- Outer loop: `for f_data in reversed(possible_outfiles)` (the caller
passes the already-reversed list). -/
def findFileLoop (pathOf : OutFileData → Nat → Nat → String) (filepath : String)
    (jobSearch : List Nat) : List OutFileData → Option (Nat × String)
  | [] => none
  | f :: rest =>
    match findJobLoop pathOf filepath f jobSearch with
    | some r => some r
    | none => findFileLoop pathOf filepath jobSearch rest

/-- `_get_outfile_info` (iceprod_tools.py lines 341-408): search job
candidates (`[job_index]` when supplied, else `range(jobs_submitted)`)
across the reversed descriptor list; on a match return the matching job and
task name; with no match return the supplied job index (if any) and no task
name, without raising. -/
def get_outfile_info (pathOf : OutFileData → Nat → Nat → String)
    (filepath : String) (job_index : Option Nat) (jobs_submitted : Nat)
    (outfiles : List OutFileData) : Option Nat × Option String :=
  let job_search :=
    match job_index with
    | some j => [j]
    | none => List.range jobs_submitted
  match findFileLoop pathOf filepath job_search outfiles.reverse with
  | some (job, task) => (some job, some task)
  | none => (job_index, none)

/-- The candidate enumeration the spec prescribes: descriptors in reverse
declaration order, then job candidates in ascending order, then iterations
ascending. -/
def searchCandidates (outfiles : List OutFileData) (jobSearch : List Nat) :
    List (OutFileData × Nat × Nat) :=
  outfiles.reverse.flatMap (fun f =>
    jobSearch.flatMap (fun j =>
      (List.range f.iters).map (fun i => (f, j, i))))

/-- `find?` distributes over append as first-hit. -/
lemma find?_append {α : Type} (p : α → Bool) (l₁ l₂ : List α) :
    (l₁ ++ l₂).find? p =
      match l₁.find? p with
      | some r => some r
      | none => l₂.find? p := by
  induction l₁ with
  | nil => simp
  | cons a l ih =>
    by_cases hp : p a
    · simp [List.find?_cons, hp]
    · simp [List.find?_cons, hp, ih]

/-- The iteration loop is the first hit over the iteration candidates. -/
lemma findIterLoop_eq_find? (pathOf : OutFileData → Nat → Nat → String)
    (filepath : String) (f : OutFileData) (job : Nat) (l : List Nat) :
    findIterLoop pathOf filepath f job l =
      ((l.map (fun i => (f, job, i))).find?
          (fun c => pathOf c.1 c.2.1 c.2.2 == filepath)).map
        (fun c => (c.2.1, c.1.task)) := by
  induction l with
  | nil => rfl
  | cons i rest ih =>
    unfold findIterLoop
    by_cases hp : pathOf f job i == filepath
    · simp [List.find?_cons, hp]
    · simp only [List.map_cons, List.find?_cons, hp, if_neg, Bool.not_eq_true]
      simp only [hp, Bool.false_eq_true, if_false, ih]

/-- The job loop is the first hit over job-then-iteration candidates. -/
lemma findJobLoop_eq_find? (pathOf : OutFileData → Nat → Nat → String)
    (filepath : String) (f : OutFileData) (js : List Nat) :
    findJobLoop pathOf filepath f js =
      ((js.flatMap (fun j => (List.range f.iters).map (fun i => (f, j, i)))).find?
          (fun c => pathOf c.1 c.2.1 c.2.2 == filepath)).map
        (fun c => (c.2.1, c.1.task)) := by
  induction js with
  | nil => rfl
  | cons j rest ih =>
    unfold findJobLoop
    rw [List.flatMap_cons, find?_append, findIterLoop_eq_find? pathOf filepath f j]
    cases h : (((List.range f.iters).map (fun i => (f, j, i))).find?
        (fun c => pathOf c.1 c.2.1 c.2.2 == filepath)) with
    | some r => simp
    | none => simp [ih]

/-- The descriptor loop is the first hit over the full candidate list. -/
lemma findFileLoop_eq_find? (pathOf : OutFileData → Nat → Nat → String)
    (filepath : String) (js : List Nat) (fs : List OutFileData) :
    findFileLoop pathOf filepath js fs =
      ((fs.flatMap (fun f =>
          js.flatMap (fun j => (List.range f.iters).map (fun i => (f, j, i))))).find?
          (fun c => pathOf c.1 c.2.1 c.2.2 == filepath)).map
        (fun c => (c.2.1, c.1.task)) := by
  induction fs with
  | nil => rfl
  | cons f rest ih =>
    unfold findFileLoop
    rw [List.flatMap_cons, find?_append, findJobLoop_eq_find? pathOf filepath f]
    cases h : ((js.flatMap (fun j =>
        (List.range f.iters).map (fun i => (f, j, i)))).find?
        (fun c => pathOf c.1 c.2.1 c.2.2 == filepath)) with
    | some r => simp
    | none => simp [ih]

/-- **C3**: the IceProd v2 output-file search enumerates candidates in
exactly this order — output descriptors of the job config in reverse
declaration order, then job index ascending (the supplied index alone, or
`0..jobs_submitted-1` when unsupplied), then iteration ascending within each
descriptor; the first candidate whose substituted template path equals the
target filepath wins and fixes the returned job index and task name; if no
candidate matches, the function returns partial results (task name absent,
the job index only if it was supplied) instead of raising. -/
theorem outfile_search_order (pathOf : OutFileData → Nat → Nat → String)
    (filepath : String) (job_index : Option Nat) (jobs_submitted : Nat)
    (tasks : List IPTask) :
    get_outfile_info pathOf filepath job_index jobs_submitted
        (get_outfiles tasks) =
      match
        (searchCandidates (get_outfiles tasks)
            (match job_index with
             | some j => [j]
             | none => List.range jobs_submitted)).find?
          (fun c => pathOf c.1 c.2.1 c.2.2 == filepath)
      with
      | some c => (some c.2.1, some c.1.task)
      | none => (job_index, none) := by
  unfold get_outfile_info searchCandidates
  dsimp only
  rw [findFileLoop_eq_find?]
  cases h : (((get_outfiles tasks).reverse.flatMap (fun f =>
      (match job_index with
       | some j => [j]
       | none => List.range jobs_submitted).flatMap (fun j =>
        (List.range f.iters).map (fun i => (f, j, i))))).find?
      (fun c => pathOf c.1 c.2.1 c.2.2 == filepath)) with
  | some r => simp
  | none => simp

/-! ## Simulation-metadata key mapping

Embedding of the key-mapping stage of
`DataSimI3FileMetadata.get_simulation_metadata`
(src/indexer/metadata/simulation/data_sim.py lines 110-216): each
simulation-metadata field is resolved from the steering-parameter table by
case-insensitive substring candidates, replacing an existing mapping only
with a strictly shorter parameter key.  (The subsequent `power_law_index`
string re-formatting only reformats the already-chosen value and involves
`float()` parsing; it is outside the mapped-key selection this claim is
about.) -/

/-- `str.upper()` (ASCII). -/
def pyUpper (s : String) : String := ⟨s.data.map Char.toUpper⟩

/-- Python's `needle in hay` substring test. -/
def isSubstring (needle hay : List Char) : Bool :=
  (List.range (hay.length + 1)).any (fun i => needle.isPrefixOf (hay.drop i))

/-- `any(s.upper() in paramkey.upper() for s in metakey_substrings[metakey])`. -/
def matchesMeta (substrs : List String) (paramkey : String) : Bool :=
  substrs.any (fun s => isSubstring (pyUpper s).data (pyUpper paramkey).data)

/-- The `metakey_substrings` table of `get_simulation_metadata` after
`add_keys_to_list` appended each key to its own candidate list. -/
def metakey_substrings : List (String × List String) :=
  [("generator", ["category", "generator"]),
   ("generator-backup", ["mctype", "generator-backup"]),
   ("composition", ["flavor", "composition"]),
   ("geometry", ["geometry"]),
   ("GCD_file", ["gcd", "GCD_file"]),
   ("bulk_ice_model", ["IceModel", "bulkice", "bulk_ice_model"]),
   ("hole_ice_model", ["holeice", "hole_ice_model"]),
   ("photon_propagator", ["photonpropagator", "photon_propagator"]),
   ("DOMefficiency", ["DOMefficiency"]),
   ("atmosphere", ["atmod", "ratmo", "atmosphere"]),
   ("n_events", ["nevents", "NumberOfPrimaries", "showers", "n_events"]),
   ("oversampling", ["oversampling"]),
   ("DOMoversize", ["oversize", "DOMoversize"]),
   ("energy_min", ["eprimarymin", "emin", "e_min", "energy_min"]),
   ("energy_max", ["eprimarymax", "emax", "e_max", "energy_max"]),
   ("power_law_index", ["spectrum", "gamma", "eslope", "power_law_index"]),
   ("cylinder_length", ["length", "cylinder_length"]),
   ("cylinder_radius", ["radius", "cylinder_radius"]),
   ("zenith_min", ["zenithmin", "zenith_min"]),
   ("zenith_max", ["zenithmax", "zenith_max"]),
   ("hadronic_interaction", ["hadronicinteraction", "hadronic_interaction"])]

/-- One inner-loop iteration for one field: skip a non-matching parameter
key; keep an existing mapping only when the new key is strictly longer
(`len(paramkey) > len(key_maps[metakey])`), otherwise (re)assign. -/
def stepKeyMap (substrs : List String) (cur : Option String) (paramkey : String) :
    Option String :=
  if matchesMeta substrs paramkey then
    match cur with
    | some existing =>
      if paramkey.length > existing.length then cur else some paramkey
    | none => some paramkey
  else cur

/-- Pointwise update of the `key_maps` dict. -/
def key_maps_update (km : String → Option String) (metakey : String)
    (v : Option String) : String → Option String :=
  fun k => if k = metakey then v else km k

/-- The inner `for metakey in metakey_substrings.keys()` loop for one
steering-parameter key. -/
def proc_paramkey (pk : String) :
    List (String × List String) → (String → Option String) →
      (String → Option String)
  | [], km => km
  | (mk, substrs) :: rest, km =>
    proc_paramkey pk rest (key_maps_update km mk (stepKeyMap substrs (km mk) pk))

/-- The outer `for paramkey in steering_parameters.keys()` loop building
`key_maps`. -/
def build_key_maps (table : List (String × List String))
    (paramkeys : List String) : String → Option String :=
  paramkeys.foldl (fun km pk => proc_paramkey pk table km) (fun _ => none)

/-- The "remedy backup generator" step: `generator` falls back to the
2nd-choice `generator-backup` mapping, which is then dropped. -/
def remedy_generator (km : String → Option String) : String → Option String :=
  fun mk =>
    if mk = "generator" then
      match km "generator" with
      | some v => some v
      | none => km "generator-backup"
    else if mk = "generator-backup" then none
    else km mk

/-- Dict lookup in the steering-parameter table. -/
def lookupParam (sp : List (String × String)) (k : String) : Option String :=
  (sp.find? (fun e => e.1 == k)).map Prod.snd

/-- The populate loop: `sim_meta[metakey] = steering_parameters[paramkey]`. -/
def populate_sim_meta (sp : List (String × String))
    (km : String → Option String) (metakey : String) : Option String :=
  (km metakey).bind (fun pk => lookupParam sp pk)

/-- The inner loop only touches the entry of the processed field. -/
lemma proc_paramkey_other (pk mk : String) :
    ∀ (table : List (String × List String)) (km : String → Option String),
      mk ∉ table.map Prod.fst → proc_paramkey pk table km mk = km mk
  | [], km, _ => rfl
  | (mk', substrs) :: rest, km, hnot => by
    rw [List.map_cons] at hnot
    unfold proc_paramkey
    rw [proc_paramkey_other pk mk rest _
      (fun hmem => hnot (List.mem_cons_of_mem _ hmem))]
    unfold key_maps_update
    rw [if_neg (fun (h : mk = mk') => hnot (h ▸ List.mem_cons_self _ _))]

/-- On a table with distinct field names, the inner loop applies exactly one
`stepKeyMap` to the field's entry. -/
lemma proc_paramkey_at (pk mk : String) (substrs : List String) :
    ∀ (table : List (String × List String)) (km : String → Option String),
      (table.map Prod.fst).Nodup → (mk, substrs) ∈ table →
      proc_paramkey pk table km mk = stepKeyMap substrs (km mk) pk
  | [], _, _, hmem => absurd hmem (by simp)
  | (mk', substrs') :: rest, km, hnodup, hmem => by
    rcases List.mem_cons.mp hmem with heq | hmem'
    · injection heq with h1 h2
      subst h1; subst h2
      unfold proc_paramkey
      rw [proc_paramkey_other pk mk rest _ (by
        simp only [List.map_cons, List.nodup_cons] at hnodup
        exact hnodup.1)]
      unfold key_maps_update
      rw [if_pos rfl]
    · have hne : mk ≠ mk' := by
        intro h
        subst h
        simp only [List.map_cons, List.nodup_cons] at hnodup
        exact hnodup.1 (List.mem_map_of_mem Prod.fst hmem')
      unfold proc_paramkey
      rw [proc_paramkey_at pk mk substrs rest _
          (by simp only [List.map_cons, List.nodup_cons] at hnodup; exact hnodup.2)
          hmem']
      unfold key_maps_update
      rw [if_neg hne]

/-- `build_key_maps` at one field is the flat fold of `stepKeyMap` over the
steering-parameter keys. -/
lemma build_key_maps_at (table : List (String × List String))
    (mk : String) (substrs : List String)
    (hnodup : (table.map Prod.fst).Nodup) (hmem : (mk, substrs) ∈ table)
    (paramkeys : List String) :
    build_key_maps table paramkeys mk =
      paramkeys.foldl (fun cur pk => stepKeyMap substrs cur pk) none := by
  suffices h : ∀ (km : String → Option String),
      paramkeys.foldl (fun km pk => proc_paramkey pk table km) km mk =
        paramkeys.foldl (fun cur pk => stepKeyMap substrs cur pk) (km mk) by
    exact h (fun _ => none)
  induction paramkeys with
  | nil => intro km; rfl
  | cons pk rest ih =>
    intro km
    simp only [List.foldl_cons]
    rw [ih (proc_paramkey pk table km)]
    rw [proc_paramkey_at pk mk substrs table km hnodup hmem]

/-- When the parameter key matches, `stepKeyMap` yields a candidate that is
no longer than the new key and no longer than any previous candidate. -/
lemma stepKeyMap_matched (substrs : List String) (cur : Option String)
    (q : String) (hm : matchesMeta substrs q = true) :
    ∃ r, stepKeyMap substrs cur q = some r ∧ (r = q ∨ cur = some r) ∧
      r.length ≤ q.length ∧ (∀ c, cur = some c → r.length ≤ c.length) := by
  unfold stepKeyMap
  rw [if_pos hm]
  cases cur with
  | none => exact ⟨q, rfl, Or.inl rfl, le_refl _, by intro c hc; cases hc⟩
  | some existing =>
    by_cases hlen : q.length > existing.length
    · refine ⟨existing, ?_, Or.inr rfl, le_of_lt hlen, ?_⟩
      · simp only [if_pos hlen]
      · intro c hc; injection hc with h; subst h; exact le_refl _
    · refine ⟨q, ?_, Or.inl rfl, le_refl _, ?_⟩
      · simp only [if_neg hlen]
      · intro c hc; injection hc with h; subst h; exact le_of_not_lt hlen

/-- When the parameter key does not match, `stepKeyMap` keeps the current
candidate. -/
lemma stepKeyMap_unmatched (substrs : List String) (cur : Option String)
    (q : String) (hm : ¬matchesMeta substrs q = true) :
    stepKeyMap substrs cur q = cur := by
  unfold stepKeyMap
  rw [if_neg hm]

/-- Soundness of the per-field fold: the resulting parameter key is a
matching key from the list (or the initial candidate), and its length is
minimal among the matching keys and the initial candidate. -/
lemma foldl_stepKeyMap_sound (substrs : List String) :
    ∀ (paramkeys : List String) (cur : Option String) (pk : String),
      paramkeys.foldl (fun c q => stepKeyMap substrs c q) cur = some pk →
      ((pk ∈ paramkeys ∧ matchesMeta substrs pk = true) ∨ cur = some pk) ∧
      (∀ q ∈ paramkeys, matchesMeta substrs q = true → pk.length ≤ q.length) ∧
      (∀ c, cur = some c → pk.length ≤ c.length)
  | [], cur, pk => by
    intro h
    have hcpk : cur = some pk := h
    refine ⟨Or.inr hcpk, by simp, ?_⟩
    intro c hc
    rw [hcpk] at hc
    injection hc with h'
    subst h'
    exact le_refl _
  | q :: rest, cur, pk => by
    intro h
    simp only [List.foldl_cons] at h
    obtain ⟨hsrc, hmin, hcur⟩ :=
      foldl_stepKeyMap_sound substrs rest (stepKeyMap substrs cur q) pk h
    by_cases hm : matchesMeta substrs q = true
    · obtain ⟨r, hr, hror, hrq, hrc⟩ := stepKeyMap_matched substrs cur q hm
      have hpk_le_r : pk.length ≤ r.length := hcur r hr
      refine ⟨?_, ?_, ?_⟩
      · rcases hsrc with ⟨hpk, hpkm⟩ | hcs
        · exact Or.inl ⟨List.mem_cons_of_mem _ hpk, hpkm⟩
        · rw [hr] at hcs
          injection hcs with hh
          subst hh
          rcases hror with rfl | hc
          · exact Or.inl ⟨List.mem_cons_self _ _, hm⟩
          · exact Or.inr hc
      · intro q' hq' hq'm
        rcases List.mem_cons.mp hq' with rfl | hq''
        · exact le_trans hpk_le_r hrq
        · exact hmin q' hq'' hq'm
      · intro c hc
        exact le_trans hpk_le_r (hrc c hc)
    · have hstep := stepKeyMap_unmatched substrs cur q hm
      rw [hstep] at hsrc hcur
      refine ⟨?_, ?_, hcur⟩
      · rcases hsrc with ⟨hpk, hpkm⟩ | hcs
        · exact Or.inl ⟨List.mem_cons_of_mem _ hpk, hpkm⟩
        · exact Or.inr hcs
      · intro q' hq' hq'm
        rcases List.mem_cons.mp hq' with rfl | hq''
        · exact absurd hq'm hm
        · exact hmin q' hq'' hq'm

/-- Completeness of the per-field fold: a mapping exists as soon as some
parameter key matches (or a candidate was already present). -/
lemma foldl_stepKeyMap_complete (substrs : List String) :
    ∀ (paramkeys : List String) (cur : Option String),
      ((∃ q ∈ paramkeys, matchesMeta substrs q = true) ∨ cur.isSome = true) →
      (paramkeys.foldl (fun c q => stepKeyMap substrs c q) cur).isSome = true
  | [], cur => by
    rintro (⟨q, hq, _⟩ | h)
    · cases hq
    · exact h
  | q :: rest, cur => by
    intro h
    simp only [List.foldl_cons]
    apply foldl_stepKeyMap_complete substrs rest
    by_cases hm : matchesMeta substrs q = true
    · right
      obtain ⟨r, hr, -, -, -⟩ := stepKeyMap_matched substrs cur q hm
      rw [hr]
      rfl
    · rcases h with ⟨q', hq', hm'⟩ | h
      · rcases List.mem_cons.mp hq' with rfl | hq''
        · exact absurd hm' hm
        · exact Or.inl ⟨q', hq'', hm'⟩
      · right
        rw [stepKeyMap_unmatched substrs cur q hm]
        exact h

/-- **C9**: for every steering-parameter table, each simulation-metadata
field is mapped to a steering-parameter key by case-insensitive substring
match against that field's candidate substrings, and when more than one
steering-parameter key matches the same field, a matching key of minimal
length is the one whose value is used (shortest-key-wins tie-break); a
mapping exists whenever some key matches. -/
theorem simulation_metadata_shortest_key (sp : List (String × String))
    (metakey : String) (substrs : List String)
    (hin : (metakey, substrs) ∈ metakey_substrings) :
    (∀ pk, build_key_maps metakey_substrings (sp.map Prod.fst) metakey = some pk →
      (pk ∈ sp.map Prod.fst ∧ matchesMeta substrs pk = true ∧
        ∀ q ∈ sp.map Prod.fst, matchesMeta substrs q = true →
          pk.length ≤ q.length) ∧
      populate_sim_meta sp (build_key_maps metakey_substrings (sp.map Prod.fst))
          metakey = lookupParam sp pk) ∧
    ((∃ q ∈ sp.map Prod.fst, matchesMeta substrs q = true) →
      (build_key_maps metakey_substrings (sp.map Prod.fst) metakey).isSome
        = true) := by
  have hnodup : (metakey_substrings.map Prod.fst).Nodup := by decide
  have hb := build_key_maps_at metakey_substrings metakey substrs hnodup hin
    (sp.map Prod.fst)
  constructor
  · intro pk hpk
    have hpk' := hpk
    rw [hb] at hpk'
    obtain ⟨hsrc, hmin, -⟩ := foldl_stepKeyMap_sound substrs (sp.map Prod.fst)
      none pk hpk'
    refine ⟨?_, ?_⟩
    · rcases hsrc with ⟨hmem, hmatch⟩ | habs
      · exact ⟨hmem, hmatch, hmin⟩
      · cases habs
    · unfold populate_sim_meta
      rw [hpk]
      rfl
  · intro hex
    rw [hb]
    exact foldl_stepKeyMap_complete substrs (sp.map Prod.fst) none (Or.inl hex)

/-- Witness for C9 at a concrete input: both `IceModelTarball::0` and
`IceModel` match `bulk_ice_model`; the shorter key `IceModel` wins and its
value is the one used. -/
theorem simulation_metadata_shortest_key_witness :
    ("bulk_ice_model", ["IceModel", "bulkice", "bulk_ice_model"])
        ∈ metakey_substrings ∧
    ("IceModel" ∈
        ([("IceModelTarball::0", "tarball"), ("IceModel", "spice")].map
          Prod.fst) ∧
      matchesMeta ["IceModel", "bulkice", "bulk_ice_model"] "IceModel" = true ∧
      ∀ q ∈ ([("IceModelTarball::0", "tarball"), ("IceModel", "spice")].map
          Prod.fst),
        matchesMeta ["IceModel", "bulkice", "bulk_ice_model"] q = true →
          ("IceModel" : String).length ≤ q.length) ∧
    populate_sim_meta [("IceModelTarball::0", "tarball"), ("IceModel", "spice")]
        (build_key_maps metakey_substrings
          ([("IceModelTarball::0", "tarball"), ("IceModel", "spice")].map
            Prod.fst))
        "bulk_ice_model"
      = lookupParam [("IceModelTarball::0", "tarball"), ("IceModel", "spice")]
          "IceModel" :=
  ⟨by decide,
   (simulation_metadata_shortest_key
      [("IceModelTarball::0", "tarball"), ("IceModel", "spice")]
      "bulk_ice_model" ["IceModel", "bulkice", "bulk_ice_model"]
      (by decide)).1 "IceModel" (by decide)⟩

/-! ## Per-directory L2 metadata cache

Embedding of `MetadataManager._prep_l2_dir_metadata` and the per-file
lookups of `MetadataManager.new_file`
(src/indexer/metadata_manager.py lines 28-127).  A directory entry carries
its name, whether it is a regular file, and — as environment inputs — the
results the scan would obtain from parsing it: `xmlParse = none` models an
`xml.parsers.expat.ExpatError` (malformed `level2*meta.xml`), and
`gapsParse = none` models a `tarfile.ReadError` (malformed gaps archive),
with `some entries` the extracted (member name, parsed table) pairs.
`re.match(r"level2.*meta\.xml$", name)` holds exactly when `name` starts
with `level2` and ends with `meta.xml` (the surrounding literals share no
character, so no shorter overlap exists); the gaps and GCD branches are
plain substring tests.  `gcd_files` is keyed by `str(run)` in the source;
since `str` is injective on run numbers the key is modelled as the run
number itself. -/

abbrev XmlTree := List (String × String)

abbrev GapsDict := List (String × String)

structure ScanEntry where
  name : String
  isFile : Bool
  xmlParse : Option XmlTree
  gapsParse : Option (List (String × GapsDict))
deriving DecidableEq

/-- `re.match(r"level2.*meta\.xml$", name)`. -/
def isMetaXmlName (name : String) : Bool :=
  "level2".data.isPrefixOf name.data && "meta.xml".data.isSuffixOf name.data

/-- `"_GapsTxt.tar" in name`. -/
def hasGapsTxtTar (name : String) : Bool :=
  isSubstring "_GapsTxt.tar".data name.data

/-- `"GCD" in name`. -/
def hasGCDName (name : String) : Bool :=
  isSubstring "GCD".data name.data

/-- `I3FileMetadata.parse_run_number`: `re.match(r".*Run(?P<run>\d+)", f)` —
the greedy `.*` selects the last `Run` followed by at least one digit, whose
maximal digit run is the run number; `none` models the `Exception` raised
when no such occurrence exists. -/
def parse_run_number_chars : List Char → Option Nat
  | [] => none
  | c :: rest =>
    match parse_run_number_chars rest with
    | some n => some n
    | none =>
      if c = 'R' then
        match rest with
        | 'u' :: 'n' :: cs =>
          let ds := cs.takeWhile Char.isDigit
          if ds.isEmpty then none else digitsAcc ds 0
        | _ => none
      else none

def parse_run_number (filename : String) : Option Nat :=
  parse_run_number_chars filename.data

/-- `s.split(sep)[0]`: the part before the first occurrence of `sep` (the
whole string when `sep` is absent). -/
def takeUntilSep (sep : List Char) : List Char → List Char
  | [] => []
  | c :: rest =>
    if sep.isPrefixOf (c :: rest) then [] else c :: takeUntilSep sep rest

/-- `tar_obj.name.split("_gaps.txt")[0]`. -/
def stripGapsSuffix (s : String) : String :=
  ⟨takeUntilSep "_gaps.txt".data s.data⟩

/-- Python dict assignment then lookup: last binding wins. -/
def dictGet {κ α : Type} [BEq κ] (m : List (κ × α)) (k : κ) : Option α :=
  (m.reverse.find? (fun e => e.1 == k)).map Prod.snd

/-- The cache built by `_prep_l2_dir_metadata`. -/
structure L2DirMetadata where
  dir_meta_xml : XmlTree
  gaps_files : List (String × GapsDict)
  gcd_files : List (Nat × String)
deriving DecidableEq

/-- The `for dir_entry in os.scandir(...)` loop of `_prep_l2_dir_metadata`:
skip non-files; a `level2*meta.xml` name raises if a descriptor was already
parsed, is stored if it parses, and is ignored on `ExpatError`; a
`*_GapsTxt.tar` name adds all extracted members keyed by their name minus
`_gaps.txt`, and is skipped whole on `ReadError`; a `GCD` name is keyed by
its parsed run number (no run number is an uncaught `Exception`). -/
def prepLoop :
    List ScanEntry → Option XmlTree → List (String × GapsDict) →
      List (Nat × String) →
      Except String (Option XmlTree × List (String × GapsDict) × List (Nat × String))
  | [], mx, gaps, gcds => .ok (mx, gaps, gcds)
  | e :: rest, mx, gaps, gcds =>
    if e.isFile = false then prepLoop rest mx gaps gcds
    else if isMetaXmlName e.name then
      if mx.isSome then .error "Multiple level2*meta.xml files found"
      else
        match e.xmlParse with
        | some x => prepLoop rest (some x) gaps gcds
        | none => prepLoop rest mx gaps gcds
    else if hasGapsTxtTar e.name then
      match e.gapsParse with
      | some entries =>
        prepLoop rest mx
          (gaps ++ entries.map (fun en => (stripGapsSuffix en.1, en.2))) gcds
      | none => prepLoop rest mx gaps gcds
    else if hasGCDName e.name then
      match parse_run_number e.name with
      | some run => prepLoop rest mx gaps (gcds ++ [(run, e.name)])
      | none => .error "No run number found in filename"
    else prepLoop rest mx gaps gcds

/-- `_prep_l2_dir_metadata`: run the scan over the directory listing; an
absent descriptor becomes the empty dict. -/
def prep_l2_dir_metadata (entries : List ScanEntry) :
    Except String L2DirMetadata :=
  match prepLoop entries none [] [] with
  | .error e => .error e
  | .ok (mx, gaps, gcds) => .ok ⟨mx.getD [], gaps, gcds⟩

/-- `new_file`'s gaps lookup: `KeyError` yields `{}`. -/
def lookup_gaps (md : L2DirMetadata) (no_extension : String) : GapsDict :=
  (dictGet md.gaps_files no_extension).getD []

/-- `new_file`'s GCD lookup: `KeyError` yields `""`. -/
def lookup_gcd (md : L2DirMetadata) (run : Nat) : String :=
  (dictGet md.gcd_files run).getD ""

/-- Unfolding lemma for one scan step (the `cons` equation of `prepLoop`). -/
lemma prepLoop_cons (e : ScanEntry) (rest : List ScanEntry)
    (mx : Option XmlTree) (gaps : List (String × GapsDict))
    (gcds : List (Nat × String)) :
    prepLoop (e :: rest) mx gaps gcds =
      if e.isFile = false then prepLoop rest mx gaps gcds
      else if isMetaXmlName e.name then
        if mx.isSome then .error "Multiple level2*meta.xml files found"
        else
          match e.xmlParse with
          | some x => prepLoop rest (some x) gaps gcds
          | none => prepLoop rest mx gaps gcds
      else if hasGapsTxtTar e.name then
        match e.gapsParse with
        | some entries =>
          prepLoop rest mx
            (gaps ++ entries.map (fun en => (stripGapsSuffix en.1, en.2))) gcds
        | none => prepLoop rest mx gaps gcds
      else if hasGCDName e.name then
        match parse_run_number e.name with
        | some run => prepLoop rest mx gaps (gcds ++ [(run, e.name)])
        | none => .error "No run number found in filename"
      else prepLoop rest mx gaps gcds := rfl

/-- Once a descriptor has been parsed, any further matching file makes the
scan raise (every continuation either hits the second descriptor or raises
earlier on a run-number-less GCD name). -/
lemma prepLoop_second_meta_errors :
    ∀ (entries : List ScanEntry) (mx : Option XmlTree)
      (gaps : List (String × GapsDict)) (gcds : List (Nat × String)),
      mx.isSome = true →
      (∃ e ∈ entries, e.isFile = true ∧ isMetaXmlName e.name = true) →
      ∃ err, prepLoop entries mx gaps gcds = .error err
  | [], _, _, _ => by
    intro _ hex
    obtain ⟨e, he, -⟩ := hex
    cases he
  | e :: rest, mx, gaps, gcds => by
    intro hmx hex
    rw [prepLoop_cons]
    by_cases hf : e.isFile = false
    · rw [if_pos hf]
      refine prepLoop_second_meta_errors rest mx gaps gcds hmx ?_
      obtain ⟨w, hw, hwf, hwm⟩ := hex
      rcases List.mem_cons.mp hw with rfl | hw'
      · rw [hf] at hwf; cases hwf
      · exact ⟨w, hw', hwf, hwm⟩
    · rw [if_neg hf]
      by_cases hm : isMetaXmlName e.name = true
      · rw [if_pos hm, if_pos hmx]
        exact ⟨_, rfl⟩
      · rw [if_neg hm]
        have hex' : ∃ w ∈ rest, w.isFile = true ∧ isMetaXmlName w.name = true := by
          obtain ⟨w, hw, hwf, hwm⟩ := hex
          rcases List.mem_cons.mp hw with rfl | hw'
          · exact absurd hwm hm
          · exact ⟨w, hw', hwf, hwm⟩
        by_cases hg : hasGapsTxtTar e.name = true
        · rw [if_pos hg]
          cases e.gapsParse with
          | some entries' => exact prepLoop_second_meta_errors rest mx _ gcds hmx hex'
          | none => exact prepLoop_second_meta_errors rest mx gaps gcds hmx hex'
        · rw [if_neg hg]
          by_cases hc : hasGCDName e.name = true
          · rw [if_pos hc]
            cases parse_run_number e.name with
            | some run => exact prepLoop_second_meta_errors rest mx gaps _ hmx hex'
            | none => exact ⟨_, rfl⟩
          · rw [if_neg hc]
            exact prepLoop_second_meta_errors rest mx gaps gcds hmx hex'

/-- **C8 counterexample**: the claim as stated is false: when the *first*
`level2*meta.xml` file is malformed (`ExpatError`, tolerated as absent), a
second matching file does not raise — the scan stores it and succeeds. -/
theorem l2_dir_cache_second_meta_cex :
    isMetaXmlName "level2_meta.xml" = true ∧
    isMetaXmlName "level2pass2_meta.xml" = true ∧
    prep_l2_dir_metadata
        [⟨"level2_meta.xml", true, none, none⟩,
         ⟨"level2pass2_meta.xml", true, some [("k", "v")], none⟩]
      = .ok ⟨[("k", "v")], [], []⟩ := by
  refine ⟨by decide, by decide, ?_⟩
  rfl

/-- **C8 (amended)**: the per-directory L2 cache enforces this error
contract: encountering a file matching `level2*meta.xml` *after one has
already been parsed successfully* raises an exception (fatal) — a malformed
XML descriptor is tolerated (treated as absent, so it neither raises nor
counts as the first descriptor), and a malformed gaps archive is tolerated
(skipped); and for every per-file lookup after the scan, a miss in
`gaps_files` yields an empty dict and a miss in `gcd_files` yields an empty
string, so a missing auxiliary entry never raises and never prevents the
file's record from being generated. -/
theorem l2_dir_cache_error_contract (e₁ : ScanEntry) (rest : List ScanEntry)
    (h₁ : e₁.isFile = true ∧ isMetaXmlName e₁.name = true ∧
      e₁.xmlParse.isSome = true)
    (h₂ : ∃ e ∈ rest, e.isFile = true ∧ isMetaXmlName e.name = true) :
    (∃ err, prep_l2_dir_metadata (e₁ :: rest) = .error err) ∧
    (∀ e : ScanEntry, e.isFile = true → isMetaXmlName e.name = true →
      e.xmlParse = none → prep_l2_dir_metadata [e] = .ok ⟨[], [], []⟩) ∧
    (∀ e : ScanEntry, e.isFile = true → isMetaXmlName e.name = false →
      hasGapsTxtTar e.name = true → e.gapsParse = none →
      prep_l2_dir_metadata [e] = .ok ⟨[], [], []⟩) ∧
    (∀ (md : L2DirMetadata) (k : String), dictGet md.gaps_files k = none →
      lookup_gaps md k = []) ∧
    (∀ (md : L2DirMetadata) (run : Nat), dictGet md.gcd_files run = none →
      lookup_gcd md run = "") := by
  obtain ⟨hf, hm, hx⟩ := h₁
  refine ⟨?_, ?_, ?_, ?_, ?_⟩
  · obtain ⟨x, hx'⟩ := Option.isSome_iff_exists.mp hx
    have hstep : prepLoop (e₁ :: rest) none [] [] = prepLoop rest (some x) [] [] := by
      rw [prepLoop_cons]
      rw [if_neg (by rw [hf]; exact fun h => Bool.noConfusion h), if_pos hm]
      simp only [Option.isSome_none, Bool.false_eq_true, if_false, hx']
    obtain ⟨err, herr⟩ := prepLoop_second_meta_errors rest (some x) [] [] rfl h₂
    refine ⟨err, ?_⟩
    unfold prep_l2_dir_metadata
    rw [hstep, herr]
  · intro e hef hem hexml
    unfold prep_l2_dir_metadata
    rw [prepLoop_cons]
    rw [if_neg (by rw [hef]; exact fun h => Bool.noConfusion h), if_pos hem]
    simp only [Option.isSome_none, Bool.false_eq_true, if_false, hexml]
    rfl
  · intro e hef hem heg hegi
    unfold prep_l2_dir_metadata
    rw [prepLoop_cons]
    rw [if_neg (by rw [hef]; exact fun h => Bool.noConfusion h),
      if_neg (by rw [hem]; exact fun h => Bool.noConfusion h), if_pos heg]
    rw [hegi]
    rfl
  · intro md k h
    unfold lookup_gaps
    rw [h]
    rfl
  · intro md run h
    unfold lookup_gcd
    rw [h]
    rfl

/-- Witness for the amended C8: a well-formed descriptor followed by a second
matching file raises; a lone malformed descriptor or malformed gaps archive
is tolerated; misses in the empty cache degrade to `{}` and `""`. -/
theorem l2_dir_cache_error_contract_witness :
    (∃ err, prep_l2_dir_metadata
        [⟨"level2_meta.xml", true, some [("k", "v")], none⟩,
         ⟨"level2pass2_meta.xml", true, some [("k2", "v2")], none⟩]
      = .error err) ∧
    prep_l2_dir_metadata [⟨"level2_meta.xml", true, none, none⟩]
      = .ok ⟨[], [], []⟩ ∧
    prep_l2_dir_metadata [⟨"Run00125791_GapsTxt.tar", true, none, none⟩]
      = .ok ⟨[], [], []⟩ ∧
    lookup_gaps ⟨[], [], []⟩ "Level2_IC86.2017_data_Run00130484" = [] ∧
    lookup_gcd ⟨[], [], []⟩ 130484 = "" := by
  have h := l2_dir_cache_error_contract
    ⟨"level2_meta.xml", true, some [("k", "v")], none⟩
    [⟨"level2pass2_meta.xml", true, some [("k2", "v2")], none⟩]
    ⟨rfl, by decide, rfl⟩
    ⟨⟨"level2pass2_meta.xml", true, some [("k2", "v2")], none⟩, by simp,
      rfl, by decide⟩
  exact ⟨h.1,
    h.2.1 ⟨"level2_meta.xml", true, none, none⟩ rfl (by decide) rfl,
    h.2.2.1 ⟨"Run00125791_GapsTxt.tar", true, none, none⟩ rfl (by decide)
      (by decide) rfl,
    h.2.2.2.1 ⟨[], [], []⟩ "Level2_IC86.2017_data_Run00130484" rfl,
    h.2.2.2.2 ⟨[], [], []⟩ 130484 rfl⟩

/-! ## Filename classification (`parse_year_run_subrun_part`)

Embedding of `I3FileMetadata.parse_year_run_subrun_part` and
`L2FileMetadata.FILENAME_PATTERNS` (src/metadata.py lines 179-223 and
367-394).  Python's `re.match` is a backtracking engine anchored at the
start of the string: alternatives are tried left-to-right, `*`/`?` are
greedy (longer consumption first), and the first overall success wins.  The
engine below implements exactly that priority order in continuation-passing
style over a structural fuel (chosen large enough that it is never
exhausted on the inputs considered; exhaustion would only under-approximate
a match, never invent one). -/

/-- Regular-expression syntax, covering the constructs used by the L2
filename patterns: `.` (`anyc`), literals, `\d` (`digit`), character
classes, concatenation, alternation, greedy `*` and `?`, named groups
`(?P<n>..)` and unnamed capturing groups (which `groupdict` ignores). -/
inductive RE where
  | eps
  | anyc
  | lit (c : Char)
  | digit
  | cls (cs : List Char)
  | seq (a b : RE)
  | alt (a b : RE)
  | star (a : RE)
  | opt (a : RE)
  | group (name : String) (a : RE)
  | ngroup (a : RE)
deriving DecidableEq

abbrev Caps := List (String × String)

/-- Backtracking matcher: `mrun fuel r s caps k` matches `r` against a
prefix of `s`, extending `caps` with named-group captures, and calls the
continuation `k` on the remaining suffix — alternatives in Python's
priority order (greedy first), first success wins.  A star iteration must
consume at least one character (Python's engine likewise never repeats an
empty match). -/
def mrun : Nat → RE → List Char → Caps →
    (List Char → Caps → Option Caps) → Option Caps
  | 0, _, _, _, _ => none
  | fuel + 1, r, s, caps, k =>
    match r with
    | .eps => k s caps
    | .anyc =>
      match s with
      | [] => none
      | c :: t => if c = '\n' then none else k t caps
    | .lit c =>
      match s with
      | [] => none
      | c' :: t => if c = c' then k t caps else none
    | .digit =>
      match s with
      | [] => none
      | c :: t => if c.isDigit then k t caps else none
    | .cls cs =>
      match s with
      | [] => none
      | c :: t => if cs.contains c then k t caps else none
    | .seq a b => mrun fuel a s caps (fun s' caps' => mrun fuel b s' caps' k)
    | .alt a b =>
      match mrun fuel a s caps k with
      | some res => some res
      | none => mrun fuel b s caps k
    | .star a =>
      match mrun fuel a s caps (fun s' caps' =>
          if s'.length < s.length then mrun fuel (.star a) s' caps' k
          else none) with
      | some res => some res
      | none => k s caps
    | .opt a =>
      match mrun fuel a s caps k with
      | some res => some res
      | none => k s caps
    | .group name a =>
      mrun fuel a s caps (fun s' caps' =>
        k s' (caps' ++ [(name, ⟨s.take (s.length - s'.length)⟩)]))
    | .ngroup a => mrun fuel a s caps k

/-- Syntactic size, used to bound the fuel. -/
def reSize : RE → Nat
  | .eps | .anyc | .digit => 1
  | .lit _ | .cls _ => 1
  | .seq a b | .alt a b => reSize a + reSize b + 1
  | .star a | .opt a | .group _ a | .ngroup a => reSize a + 1

/-- `re.match(p, s)`: anchored at the start, any suffix may remain; returns
the first match's captures in backtracking priority order. -/
def pymatch (r : RE) (s : String) : Option Caps :=
  mrun ((s.data.length + 1) * (reSize r + 2) + reSize r + 2) r s.data []
    (fun _ caps => some caps)

/-- Concatenation of a pattern list. -/
def rcat (l : List RE) : RE := l.foldr .seq .eps

/-- A literal string. -/
def rstr (s : String) : RE := rcat (s.data.map .lit)

/-- `\d+`. -/
def rdigits : RE := .seq .digit (.star .digit)

/-- `.*`. -/
def dotstar : RE := .star .anyc

/-- `(?P<year>20\d{2})`. -/
def ryear : RE := .group "year" (rcat [.lit '2', .lit '0', .digit, .digit])

/-- `L2FileMetadata.FILENAME_PATTERNS` (metadata.py lines 367-394),
transcribed pattern by pattern:
1. `.*\.(?P<year>20\d{2}).*_data_Run(?P<run>\d+)_Subrun(?P<subrun>\d+)_(?P<part>\d+)\.`
2. `.*_PhysicsFiltering_Run(?P<run>\d+)_Subrun(?P<subrun>\d+)_(?P<part>\d+)(_new\d+)?\.`
3. `.*\.(?P<year>20\d{2})_.*data_Run(?P<run>\d+)_Subrun(?P<part>\d+)\.`
4. `.*\.(?P<year>20\d{2})_data_Run(?P<run>\d+)_Part(?P<part>\d+)\.`
5. `.*_IC(?P<ic_strings>\d+)_data_Run(?P<run>\d+)_(New)?Part(?P<part>\d+)\.`
6. `.*_All_Run(?P<run>\d+)_[Pp]art(?P<part>\d+)\.` -/
def L2_FILENAME_PATTERNS : List RE :=
  [rcat [dotstar, .lit '.', ryear, dotstar, rstr "_data_Run",
     .group "run" rdigits, rstr "_Subrun", .group "subrun" rdigits,
     .lit '_', .group "part" rdigits, .lit '.'],
   rcat [dotstar, rstr "_PhysicsFiltering_Run", .group "run" rdigits,
     rstr "_Subrun", .group "subrun" rdigits, .lit '_',
     .group "part" rdigits, .opt (.ngroup (.seq (rstr "_new") rdigits)),
     .lit '.'],
   rcat [dotstar, .lit '.', ryear, .lit '_', dotstar, rstr "data_Run",
     .group "run" rdigits, rstr "_Subrun", .group "part" rdigits, .lit '.'],
   rcat [dotstar, .lit '.', ryear, rstr "_data_Run", .group "run" rdigits,
     rstr "_Part", .group "part" rdigits, .lit '.'],
   rcat [dotstar, rstr "_IC", .group "ic_strings" rdigits,
     rstr "_data_Run", .group "run" rdigits, .lit '_',
     .opt (.ngroup (rstr "New")), rstr "Part", .group "part" rdigits,
     .lit '.'],
   rcat [dotstar, rstr "_All_Run", .group "run" rdigits, .lit '_',
     .cls ['P', 'p'], rstr "art", .group "part" rdigits, .lit '.']]

/-- Error modes of `parse_year_run_subrun_part` and its helpers:
`noRunGroup` — the `Exception` for a pattern without `?P<run>`; `noSeason` —
the `Exception` from `IceCubeSeason.name_to_year` on an unknown season name;
`badInt` — `int()` applied to a non-participating group or non-numeric
value; `noMatch` — the fall-through `ValueError`. -/
inductive ParseErr where
  | noRunGroup
  | noSeason
  | badInt
  | noMatch
deriving DecidableEq

/-- `IceCubeSeason.SEASONS` (metadata.py lines 37-54). -/
def SEASONS : List (Int × String) :=
  [(2005, "ICstring9"), (2006, "IC9"), (2007, "IC22"), (2008, "IC40"),
   (2009, "IC59"), (2010, "IC79"), (2011, "IC86-1"), (2012, "IC86-2"),
   (2013, "IC86-3"), (2014, "IC86-4"), (2015, "IC86-5"), (2016, "IC86-6"),
   (2017, "IC86-7"), (2018, "IC86-8"), (2019, "IC86-9"), (2020, "IC86-10")]

/-- `IceCubeSeason.name_to_year`: `None`/empty names give `None`; a known
season name gives its year; anything else raises. -/
def name_to_year (name : String) : Except ParseErr (Option Int) :=
  if name = "" then .ok none
  else
    match SEASONS.find? (fun e => e.2 == name) with
    | some e => .ok (some e.1)
    | none => .error .noSeason

/-- The named groups appearing in a pattern, in order. -/
def groupNames : RE → List String
  | .seq a b => groupNames a ++ groupNames b
  | .alt a b => groupNames a ++ groupNames b
  | .star a => groupNames a
  | .opt a => groupNames a
  | .ngroup a => groupNames a
  | .group n a => n :: groupNames a
  | _ => []

/-- Whether the pattern contains a named group (`"?P<g>" in p`). -/
def hasGroup (g : String) (r : RE) : Bool := (groupNames r).contains g

/-- `match.groupdict()`: every named group of the pattern, mapped to its
captured value, or `None` for a group that did not participate. -/
def groupdict (r : RE) (caps : Caps) : List (String × Option String) :=
  (groupNames r).map (fun g => (g, dictGet caps g))

/-- `try: int(values[g]) except KeyError: 0` — the default used for
`run`/`subrun`/`part`; `int(None)` or `int(<non-numeric>)` raises. -/
def intGroupD (values : List (String × Option String)) (g : String) :
    Except ParseErr Int :=
  match dictGet values g with
  | none => .ok 0
  | some none => .error .badInt
  | some (some s) =>
    match pyInt s with
    | some n => .ok n
    | none => .error .badInt

/-- The per-match body of `parse_year_run_subrun_part` (metadata.py lines
195-220): year from `ic_strings` via the season table when that group is in
the pattern, else from the `year` group when present (else `None`); then
`run`, `subrun`, `part` with default 0. -/
def mkResult (p : RE) (caps : Caps) :
    Except ParseErr (Option Int × Int × Int × Int) :=
  let values := groupdict p caps
  let yearE : Except ParseErr (Option Int) :=
    match dictGet values "ic_strings" with
    | some v =>
      name_to_year ("IC" ++ (match v with | some s => s | none => "None"))
    | none =>
      match dictGet values "year" with
      | none => .ok none
      | some none => .error .badInt
      | some (some s) =>
        match pyInt s with
        | some n => .ok (some n)
        | none => .error .badInt
  match yearE with
  | .error e => .error e
  | .ok year =>
    match intGroupD values "run" with
    | .error e => .error e
    | .ok run =>
      match intGroupD values "subrun" with
      | .error e => .error e
      | .ok subrun =>
        match intGroupD values "part" with
        | .error e => .error e
        | .ok part => .ok (year, run, subrun, part)

/-- `I3FileMetadata.parse_year_run_subrun_part` (metadata.py lines 179-223):
for each pattern in order, raise if it lacks a `run` group, use the first
pattern that matches, and raise `ValueError` when none does. -/
def parse_year_run_subrun_part : List RE → String →
    Except ParseErr (Option Int × Int × Int × Int)
  | [], _ => .error .noMatch
  | p :: rest, filename =>
    if hasGroup "run" p = false then .error .noRunGroup
    else
      match pymatch p filename with
      | some caps => mkResult p caps
      | none => parse_year_run_subrun_part rest filename

/-- A group name absent from the pattern is absent from `groupdict`. -/
lemma dictGet_groupdict_none (p : RE) (caps : Caps) (g : String)
    (h : hasGroup g p = false) : dictGet (groupdict p caps) g = none := by
  unfold dictGet
  have hnone : ((groupdict p caps).reverse.find? (fun e => e.1 == g)) = none := by
    rw [List.find?_eq_none]
    intro x hx
    rcases List.mem_map.mp (List.mem_reverse.mp hx) with ⟨g', hg', rfl⟩
    intro hbeq
    have : g' = g := by simpa using hbeq
    subst this
    unfold hasGroup at h
    have h' : (groupNames p).elem g' = false := h
    rw [List.elem_eq_mem, decide_eq_false_iff_not] at h'
    exact h' hg'
  rw [hnone]
  rfl

/-- The pattern loop returns the first matching pattern's result. -/
lemma parse_eq_first_match (filename : String) :
    ∀ (patterns : List RE), (∀ p ∈ patterns, hasGroup "run" p = true) →
      parse_year_run_subrun_part patterns filename =
        match patterns.findSome? (fun p => (pymatch p filename).map (mkResult p)) with
        | some res => res
        | none => .error .noMatch
  | [], _ => rfl
  | p :: rest, hrun => by
    have hp : hasGroup "run" p = true := hrun p (by simp)
    unfold parse_year_run_subrun_part
    rw [hp]
    simp only [Bool.true_eq_false, if_false]
    cases hm : pymatch p filename with
    | some caps => simp [List.findSome?_cons, hm]
    | none =>
      rw [List.findSome?_cons]
      simp only [hm, Option.map_none]
      exact parse_eq_first_match filename rest
        (fun q hq => hrun q (List.mem_cons_of_mem _ hq))

/-- **C4**: filename classification is pattern-order-deterministic: for
every filename and every ordered pattern list (whose patterns all carry the
required `run` group), `parse_year_run_subrun_part` uses the named groups of
the first pattern in the list that matches, even if a later pattern would
also match; absent `year`/`subrun`/`part` groups default to
`None`/`0`/`0`; and in particular the filename
`Level2_IC86.2017_data_Run00130567_Subrun00000000_00000280.i3.zst` parses
against the L2 pattern list to year 2017, run 130567, subrun 0, part 280. -/
theorem classify_pattern_order (patterns : List RE) (filename : String)
    (hrun : ∀ p ∈ patterns, hasGroup "run" p = true) :
    (parse_year_run_subrun_part patterns filename =
      match patterns.findSome? (fun p => (pymatch p filename).map (mkResult p)) with
      | some res => res
      | none => .error .noMatch) ∧
    (∀ (p : RE) (caps : Caps) (ds : String) (n : Int),
      hasGroup "ic_strings" p = false → hasGroup "year" p = false →
      hasGroup "subrun" p = false → hasGroup "part" p = false →
      dictGet (groupdict p caps) "run" = some (some ds) →
      pyInt ds = some n →
      mkResult p caps = .ok (none, n, 0, 0)) ∧
    parse_year_run_subrun_part L2_FILENAME_PATTERNS
        "Level2_IC86.2017_data_Run00130567_Subrun00000000_00000280.i3.zst"
      = .ok (some 2017, 130567, 0, 280) := by
  refine ⟨parse_eq_first_match filename patterns hrun, ?_, ?_⟩
  · intro p caps ds n hic hyr hsub hpart hrg hint
    unfold mkResult intGroupD
    dsimp only
    rw [dictGet_groupdict_none p caps "ic_strings" hic,
      dictGet_groupdict_none p caps "year" hyr,
      dictGet_groupdict_none p caps "subrun" hsub,
      dictGet_groupdict_none p caps "part" hpart, hrg]
    dsimp only
    rw [hint]
  · rfl

/-- Witness for C4 at the concrete scenario input: every L2 pattern carries
the `run` group, and the scenario filename parses to
`(2017, 130567, 0, 280)`. -/
theorem classify_pattern_order_witness :
    (∀ p ∈ L2_FILENAME_PATTERNS, hasGroup "run" p = true) ∧
    parse_year_run_subrun_part L2_FILENAME_PATTERNS
        "Level2_IC86.2017_data_Run00130567_Subrun00000000_00000280.i3.zst"
      = .ok (some 2017, 130567, 0, 280) :=
  ⟨by decide,
   (classify_pattern_order L2_FILENAME_PATTERNS
      "Level2_IC86.2017_data_Run00130567_Subrun00000000_00000280.i3.zst"
      (by decide)).2.2⟩

end FCIndexer
